import Mathlib

/-
Verification of the doc-processor frontend pipeline client and of the
queue protocol described by the design document.

The TypeScript sources embedded here:
  - src/unnamed/part_003      (frontend API client: getJobStatus, pollJobStatus)
  - src/unnamed/part_002      (page component: upsertJob, handleSubmit, job records)
  - src/frontend/components/file-upload.tsx   (onDrop, handleSubmit)
  - src/frontend/components/document-viewer.tsx (getStatusPercentage, error card)

The backend queue/worker code is not part of the source tree (only its
deployment scripts and compose files are), so the queue operations are
modelled from the design document and are marked as such.
-/

namespace DocProc

/-- Job status record returned by the backend status endpoint, from
src/unnamed/part_003 lines 4-9. -/
structure JobStatus where
  job_id : String
  status : String
  markdown : String
  summary : String
deriving DecidableEq, Repr

/-- Outcome of one HTTP request as seen by the axios client: either the
decoded payload or a transport/server failure. -/
inductive HttpResult (α : Type) where
  | ok (data : α)
  | err (msg : String)
deriving DecidableEq, Repr

/-- Embedding of getJobStatus, src/unnamed/part_003 lines 47-55: on a
successful request it returns the decoded JobStatus; on any failure it
throws a fixed error. Thrown errors are modelled with Except. -/
def getJobStatus (response : HttpResult JobStatus) : Except String JobStatus :=
  match response with
  | .ok d => .ok d
  | .err _ => .error "Failed to fetch job status. Please try again."

/-- Decision taken at the end of one poll iteration: either stop, or
schedule the next poll after the given delay in milliseconds. -/
inductive PollDecision where
  | stop
  | next (delayMs : Nat)
deriving DecidableEq, Repr

/-- Embedding of one iteration of the poll closure inside pollJobStatus,
src/unnamed/part_003 lines 67-84. On a successful request with terminal
status it returns without scheduling; on a successful request with any
other status it schedules the next poll after an interval chosen by
elapsed time; on a failed request (getJobStatus throws) it schedules the
next poll after initialInterval. -/
def pollStep (initialInterval slowInterval fastPollDurationMs elapsed : Nat)
    (response : HttpResult JobStatus) : PollDecision :=
  match getJobStatus response with
  | .ok status =>
      if status.status == "done" || status.status == "error" then
        .stop
      else
        .next (if elapsed < fastPollDurationMs then initialInterval else slowInterval)
  | .error _ => .next initialInterval

/-- Default initialInterval parameter of pollJobStatus (line 61). -/
def defaultInitialInterval : Nat := 100

/-- Default slowInterval parameter of pollJobStatus (line 62). -/
def defaultSlowInterval : Nat := 500

/-- Default fastPollDurationMs parameter of pollJobStatus (line 63). -/
def defaultFastPollDurationMs : Nat := 5000

/-- Frontend job record kept in the page state, from src/unnamed/part_002
lines 10-16. -/
structure Job where
  jobId : String
  filename : String
  status : String
  summary : String
  markdown : String
deriving DecidableEq, Repr

/-- Embedding of Array.prototype.findIndex as used by upsertJob: index of
the first element satisfying the predicate, none standing for -1. -/
def findIndex (p : Job → Bool) : List Job → Option Nat
  | [] => none
  | j :: rest => if p j then some 0 else (findIndex p rest).map (· + 1)

/-- Embedding of upsertJob, src/unnamed/part_002 lines 25-35: if a job with
the same jobId is already in the list, replace it in place; otherwise
append the job at the end. -/
def upsertJob (prev : List Job) (job : Job) : List Job :=
  match findIndex (fun j => j.jobId == job.jobId) prev with
  | some idx => prev.set idx job
  | none => prev ++ [job]

/-- Job record created for each uploaded file by handleSubmit,
src/unnamed/part_002 lines 44-52: status pending, empty summary and
markdown. -/
def newJob (job_id filename : String) : Job :=
  { jobId := job_id
    filename := filename
    status := "pending"
    summary := ""
    markdown := "" }

/-- Job record written by the poll status-update callback,
src/unnamed/part_002 lines 54-61: the server record is copied verbatim. -/
def pollUpdateJob (job_id filename : String) (js : JobStatus) : Job :=
  { jobId := job_id
    filename := filename
    status := js.status
    summary := js.summary
    markdown := js.markdown }

/-- Job record written by the poll rejection handler, src/unnamed/part_002
lines 62-70: status error with the error text stored in the markdown
field. -/
def pollFailureJob (job_id filename : String) : Job :=
  { jobId := job_id
    filename := filename
    status := "error"
    summary := ""
    markdown := "Error checking job status. Please try again." }

/-- Text shown by the DocumentViewer error card,
src/frontend/components/document-viewer.tsx line 108: the markdown field,
falling back to a fixed message when it is empty. -/
def viewerErrorText (markdown : String) : String :=
  if markdown == "" then "Unknown error" else markdown

/-- Embedding of getStatusPercentage,
src/frontend/components/document-viewer.tsx lines 19-32. -/
def getStatusPercentage (status : String) : Nat :=
  if status == "pending" then 25
  else if status == "processing" then 50
  else if status == "done" then 100
  else if status == "error" then 100
  else 0

/-- Dropped file as seen by the upload component: name and MIME type. -/
structure DFile where
  name : String
  type : String
deriving DecidableEq, Repr

/-- Filter applied by onDrop, src/frontend/components/file-upload.tsx
line 21: keep only files whose MIME type is application/pdf. -/
def pdfFilter (acceptedFiles : List DFile) : List DFile :=
  acceptedFiles.filter (fun f => f.type == "application/pdf")

/-- State update performed by onDrop, src/frontend/components/file-upload.tsx
lines 18-30: the selected-files state becomes the filtered list when it is
non-empty, and is otherwise left unchanged. -/
def onDrop (prevFiles acceptedFiles : List DFile) : List DFile :=
  let pdfFiles := pdfFilter acceptedFiles
  if pdfFiles.length > 0 then pdfFiles else prevFiles

/-- Result of the submit handler of the upload form: either a validation
rejection with its message, or the invocation of the onSubmit callback
with the selected files and parser. -/
inductive SubmitResult where
  | rejected (msg : String)
  | submitted (files : List DFile) (parser : String)
deriving DecidableEq, Repr

/-- Embedding of handleSubmit, src/frontend/components/file-upload.tsx
lines 39-51: reject when no file is selected or no parser chosen,
otherwise invoke onSubmit. An unset parser is the empty string. -/
def uploadHandleSubmit (files : List DFile) (parser : String) : SubmitResult :=
  if files.length == 0 then .rejected "Please upload at least one PDF file"
  else if parser == "" then .rejected "Please select a parser"
  else .submitted files parser

/-- Modelled from the spec: the Queue Entry of section 3, a reference-only
message carrying job_id and parser_kind. The backend queue client is not
part of the source tree. -/
structure QueueEntry where
  job_id : String
  parser_kind : String
deriving DecidableEq, Repr

/-- Modelled from the spec: one delivered-but-unacknowledged entry of the
consumer group (the pending entry list), holding the delivery token, the
entry, the consumer it was delivered to and the delivery time. -/
structure PendingEntry where
  token : Nat
  entry : QueueEntry
  consumer : String
  deliveredAt : Nat
deriving DecidableEq, Repr

/-- Modelled from the spec: the state of the durable queue of section 4.1
for one consumer group. backlog holds enqueued, not yet delivered entries
with their tokens; pel holds delivered, unacknowledged entries; nextToken
supplies fresh delivery tokens. -/
structure QueueState where
  nextToken : Nat
  backlog : List (Nat × QueueEntry)
  pel : List PendingEntry
deriving DecidableEq, Repr

/-- Modelled from the spec: the empty queue, before any enqueue. -/
def initQueue : QueueState :=
  { nextToken := 0, backlog := [], pel := [] }

/-- Modelled from the spec: enqueue(entry) of section 4.1, appending the
entry to the log under a fresh token. -/
def enqueue (s : QueueState) (e : QueueEntry) : QueueState :=
  { s with
    backlog := s.backlog ++ [(s.nextToken, e)]
    nextToken := s.nextToken + 1 }

/-- Modelled from the spec: claim(group, consumer_id, block_timeout) of
section 4.1, delivering at most one entry with a delivery token to the
calling consumer; none models the timeout. -/
def claim (s : QueueState) (consumer : String) (now : Nat) :
    QueueState × Option (Nat × QueueEntry) :=
  match s.backlog with
  | [] => (s, none)
  | (t, e) :: rest =>
      ({ s with
          backlog := rest
          pel := s.pel ++ [{ token := t, entry := e, consumer := consumer, deliveredAt := now }] },
        some (t, e))

/-- Modelled from the spec: ack(group, delivery_token) of section 4.1,
marking the delivery as durably processed by removing it from the pending
entry list. -/
def ack (s : QueueState) (token : Nat) : QueueState :=
  { s with pel := s.pel.filter (fun e => e.token != token) }

/-- Modelled from the spec: reclaim(group, idle_threshold) of section 4.1,
reassigning every delivery idle for more than the threshold to the calling
consumer. -/
def reclaim (s : QueueState) (caller : String) (idleThreshold now : Nat) : QueueState :=
  { s with
    pel := s.pel.map (fun e =>
      if idleThreshold < now - e.deliveredAt then
        { e with consumer := caller, deliveredAt := now }
      else e) }

/-- Modelled from the spec: one atomic queue operation, as issued by the
Submitter (enqueue) or by any Worker of the consumer group (claim, ack,
reclaim). -/
inductive QStep : QueueState → QueueState → Prop where
  | enq (s : QueueState) (e : QueueEntry) : QStep s (enqueue s e)
  | clm (s : QueueState) (c : String) (now : Nat) : QStep s (claim s c now).fst
  | ak (s : QueueState) (t : Nat) : QStep s (ack s t)
  | rcl (s : QueueState) (c : String) (th now : Nat) : QStep s (reclaim s c th now)

/-- Modelled from the spec: queue states reachable from the empty queue by
any interleaving of atomic queue operations. -/
inductive Reachable : QueueState → Prop where
  | init : Reachable initQueue
  | step {s s' : QueueState} : Reachable s → QStep s s' → Reachable s'

/-- All delivery tokens present in the queue, undelivered before delivered. -/
def qtokens (s : QueueState) : List Nat :=
  s.backlog.map Prod.fst ++ s.pel.map PendingEntry.token

/-- Internal invariant of the queue model: tokens are pairwise distinct and
below the fresh-token counter. -/
def QInv (s : QueueState) : Prop :=
  (qtokens s).Nodup ∧ ∀ t ∈ qtokens s, t < s.nextToken

/-- C1: the poll loop stops scheduling further requests exactly when the
returned status is done or error; on any other status and on a failed
status request it schedules another poll. -/
theorem pollStep_stops_iff_terminal (ii si fast elapsed : Nat)
    (r : HttpResult JobStatus) :
    pollStep ii si fast elapsed r = .stop ↔
      ∃ js, r = .ok js ∧ (js.status = "done" ∨ js.status = "error") := by
  cases r with
  | ok js =>
      by_cases h : js.status = "done" ∨ js.status = "error"
      · have hb : (js.status == "done" || js.status == "error") = true := by
          rcases h with h | h <;> simp [h]
        simp only [pollStep, getJobStatus, hb, if_true]
        exact ⟨fun _ => ⟨js, rfl, h⟩, fun _ => trivial⟩
      · have hb : (js.status == "done" || js.status == "error") = false := by
          push_neg at h
          simp [h.1, h.2]
        simp only [pollStep, getJobStatus, hb, Bool.false_eq_true, if_false]
        constructor
        · intro hc
          exact absurd hc (by simp)
        · rintro ⟨js1, hj, hterm⟩
          cases hj
          exact absurd hterm h
  | err m =>
      simp [pollStep, getJobStatus]

/-- C6: the status lookup is total over request outcomes: for every
outcome it yields either the decoded job record or the fixed raised
error. -/
theorem getJobStatus_ok_or_raises (r : HttpResult JobStatus) :
    (∃ js, getJobStatus r = .ok js) ∨
      getJobStatus r = .error "Failed to fetch job status. Please try again." := by
  cases r with
  | ok d => exact .inl ⟨d, rfl⟩
  | err m => exact .inr rfl

/-- C7 counterexample: on a failed status request issued after the fast
window (elapsed 6000 ms with the default parameters) the next poll is
scheduled after initialInterval (100 ms), not after the elapsed-time
interval slowInterval (500 ms) demanded by the claim for every
iteration. -/
theorem pollStep_failure_interval_cex :
    pollStep 100 500 5000 6000 (.err "network failure") = .next 100 ∧
      PollDecision.next 100 ≠
        .next (if (6000 : Nat) < 5000 then 100 else 500) := by
  exact ⟨rfl, by decide⟩

/-- C7 amended: on every successful poll iteration with a non-terminal
status the next delay is initialInterval while elapsed time is below
fastPollDurationMs and slowInterval afterwards; on every failed request
the next delay is always initialInterval. -/
theorem pollStep_adaptive_backoff (ii si fast elapsed : Nat) (js : JobStatus)
    (hd : js.status ≠ "done") (he : js.status ≠ "error") :
    pollStep ii si fast elapsed (.ok js) =
        .next (if elapsed < fast then ii else si) ∧
      ∀ m : String, pollStep ii si fast elapsed (.err m) = .next ii := by
  refine ⟨?_, fun m => rfl⟩
  simp [pollStep, getJobStatus, hd, he]

/-- C7 amended, witnessed at the default parameters after the fast window
with a processing status: the scheduled delay is slowInterval. -/
theorem pollStep_adaptive_backoff_witness :
    pollStep 100 500 5000 6000 (.ok ⟨"j1", "processing", "", ""⟩) = .next 500 := by
  have h := pollStep_adaptive_backoff 100 500 5000 6000
    ⟨"j1", "processing", "", ""⟩ (by decide) (by decide)
  exact h.1.trans (by decide)

/-- C10: the progress mapping returns 25 for pending, 50 for processing,
100 for done, 100 for error and 0 for every other status string. -/
theorem getStatusPercentage_spec :
    getStatusPercentage "pending" = 25 ∧
    getStatusPercentage "processing" = 50 ∧
    getStatusPercentage "done" = 100 ∧
    getStatusPercentage "error" = 100 ∧
    ∀ s : String, s ≠ "pending" → s ≠ "processing" → s ≠ "done" →
      s ≠ "error" → getStatusPercentage s = 0 := by
  refine ⟨rfl, rfl, rfl, rfl, ?_⟩
  intro s h1 h2 h3 h4
  simp [getStatusPercentage, h1, h2, h3, h4]

/-- C10 witness: a status string outside the four known values maps to 0. -/
theorem getStatusPercentage_spec_witness :
    getStatusPercentage "unknown" = 0 :=
  getStatusPercentage_spec.2.2.2.2 "unknown" (by decide) (by decide)
    (by decide) (by decide)

/-- C8: the job record created for each accepted upload starts pending
with empty markdown and empty summary. -/
theorem newJob_initial_state (job_id filename : String) :
    (newJob job_id filename).status = "pending" ∧
    (newJob job_id filename).markdown = "" ∧
    (newJob job_id filename).summary = "" :=
  ⟨rfl, rfl, rfl⟩

/-- C4 counterexample: the poll rejection handler writes a job whose
status is error and whose markdown field is non-empty, so a job with
status error can carry markdown text. -/
theorem error_job_markdown_cex :
    (pollFailureJob "job-1" "doc.pdf").status = "error" ∧
    (pollFailureJob "job-1" "doc.pdf").markdown ≠ "" :=
  ⟨rfl, by decide⟩

/-- C4 amended: markdown is empty at job creation, but a job with status
error may carry non-empty markdown: the poll rejection handler stores the
error text in the markdown field, which the viewer renders as the error
message. -/
theorem markdown_empty_until_done_amended (job_id filename : String) :
    (newJob job_id filename).markdown = "" ∧
    (pollFailureJob job_id filename).status = "error" ∧
    (pollFailureJob job_id filename).markdown =
      "Error checking job status. Please try again." ∧
    viewerErrorText (pollFailureJob job_id filename).markdown =
      "Error checking job status. Please try again." := by
  refine ⟨rfl, rfl, rfl, ?_⟩
  simp [viewerErrorText, pollFailureJob]

/-- C2: acknowledging the same delivery token twice leaves the queue in
the same state as acknowledging it once. -/
theorem ack_idempotent (s : QueueState) (t : Nat) :
    ack (ack s t) t = ack s t := by
  simp [ack, List.filter_filter]

/-- C5: the drop filter retains only files of MIME type application/pdf,
and the submit handler invokes the upload callback only with a non-empty
file list. -/
theorem upload_rejects_bad_input (acceptedFiles files : List DFile)
    (parser : String) :
    (∀ f ∈ pdfFilter acceptedFiles, f.type = "application/pdf") ∧
    (∀ fs p, uploadHandleSubmit files parser = .submitted fs p → fs ≠ []) := by
  constructor
  · intro f hf
    have h := (List.mem_filter.mp hf).2
    simpa using h
  · intro fs p h
    unfold uploadHandleSubmit at h
    split at h
    · simp at h
    · split at h
      · simp at h
      · rename_i hlen _
        injection h with h1 h2
        subst h1
        intro hnil
        rw [hnil] at hlen
        simp at hlen

/-- C5 witness: a mixed drop keeps only the PDF file, and submitting one
PDF with a chosen parser reaches the callback with a non-empty list. -/
theorem upload_rejects_bad_input_witness :
    (DFile.mk "a.pdf" "application/pdf").type = "application/pdf" ∧
    [DFile.mk "a.pdf" "application/pdf"] ≠ ([] : List DFile) := by
  have h := upload_rejects_bad_input
    [DFile.mk "a.pdf" "application/pdf", DFile.mk "b.txt" "text/plain"]
    [DFile.mk "a.pdf" "application/pdf"] "pypdf"
  refine ⟨h.1 (DFile.mk "a.pdf" "application/pdf") ?_,
    h.2 [DFile.mk "a.pdf" "application/pdf"] "pypdf" ?_⟩
  · simp [pdfFilter]
  · rfl

theorem qinv_init : QInv initQueue := by
  constructor
  · simp [qtokens, initQueue]
  · intro t ht
    simp [qtokens, initQueue] at ht

theorem qinv_enqueue (s : QueueState) (e : QueueEntry) (h : QInv s) :
    QInv (enqueue s e) := by
  obtain ⟨hnd, hlt⟩ := h
  have h1 : qtokens (enqueue s e) =
      (s.backlog.map Prod.fst ++ [s.nextToken]) ++ s.pel.map PendingEntry.token := by
    simp [qtokens, enqueue]
  have h2 : List.Perm
      ((s.backlog.map Prod.fst ++ [s.nextToken]) ++ s.pel.map PendingEntry.token)
      ((s.nextToken :: s.backlog.map Prod.fst) ++ s.pel.map PendingEntry.token) :=
    (List.perm_append_singleton _ _).append_right _
  have hperm : List.Perm (qtokens (enqueue s e)) (s.nextToken :: qtokens s) := by
    rw [h1]
    exact h2
  constructor
  · refine hperm.nodup_iff.mpr (List.nodup_cons.mpr ⟨?_, hnd⟩)
    intro hmem
    exact absurd (hlt _ hmem) (lt_irrefl _)
  · intro t ht
    have ht2 : t ∈ s.nextToken :: qtokens s := hperm.subset ht
    have hnext : (enqueue s e).nextToken = s.nextToken + 1 := rfl
    rw [hnext]
    rcases List.mem_cons.mp ht2 with h1 | h2
    · subst h1
      exact Nat.lt_succ_self _
    · exact Nat.lt_succ_of_lt (hlt _ h2)

theorem qinv_claim (s : QueueState) (c : String) (now : Nat) (h : QInv s) :
    QInv (claim s c now).fst := by
  obtain ⟨hnd, hlt⟩ := h
  cases hb : s.backlog with
  | nil =>
      have hfst : (claim s c now).fst = s := by simp [claim, hb]
      rw [hfst]
      exact ⟨hnd, hlt⟩
  | cons hd rest =>
      obtain ⟨t, e⟩ := hd
      have h1 : qtokens (claim s c now).fst =
          (rest.map Prod.fst ++ s.pel.map PendingEntry.token) ++ [t] := by
        simp [qtokens, claim, hb]
      have h3 : qtokens s =
          t :: (rest.map Prod.fst ++ s.pel.map PendingEntry.token) := by
        simp [qtokens, hb]
      have hperm : List.Perm (qtokens (claim s c now).fst) (qtokens s) := by
        rw [h1, h3]
        exact List.perm_append_singleton _ _
      have hnext : (claim s c now).fst.nextToken = s.nextToken := by
        simp [claim, hb]
      constructor
      · exact hperm.nodup_iff.mpr hnd
      · intro tk htk
        rw [hnext]
        exact hlt _ (hperm.subset htk)

theorem qinv_ack (s : QueueState) (t : Nat) (h : QInv s) : QInv (ack s t) := by
  obtain ⟨hnd, hlt⟩ := h
  have hsub : List.Sublist (qtokens (ack s t)) (qtokens s) := by
    have h1 : List.Sublist
        ((s.pel.filter (fun e => e.token != t)).map PendingEntry.token)
        (s.pel.map PendingEntry.token) :=
      (List.filter_sublist _).map _
    exact h1.append_left _
  constructor
  · exact hnd.sublist hsub
  · intro tk htk
    have := hlt _ (hsub.subset htk)
    simpa [ack] using this

theorem qtokens_reclaim (s : QueueState) (c : String) (th now : Nat) :
    qtokens (reclaim s c th now) = qtokens s := by
  simp only [qtokens, reclaim, List.map_map]
  congr 1
  apply List.map_congr_left
  intro e he
  simp only [Function.comp]
  split <;> rfl

theorem qinv_reclaim (s : QueueState) (c : String) (th now : Nat)
    (h : QInv s) : QInv (reclaim s c th now) := by
  obtain ⟨hnd, hlt⟩ := h
  constructor
  · rw [qtokens_reclaim]
    exact hnd
  · intro t ht
    rw [qtokens_reclaim] at ht
    exact hlt _ ht

theorem reachable_qinv {s : QueueState} (h : Reachable s) : QInv s := by
  induction h with
  | init => exact qinv_init
  | step _ hstep ih =>
      cases hstep with
      | enq e => exact qinv_enqueue _ e ih
      | clm c now => exact qinv_claim _ c now ih
      | ak t => exact qinv_ack _ t ih
      | rcl c th now => exact qinv_reclaim _ c th now ih

/-- C3: in every reachable queue state the delivery tokens of the pending
entry list are pairwise distinct, so no two consumers of the group hold
the delivery token of the same entry at the same instant. -/
theorem queue_single_delivery (s : QueueState) (hr : Reachable s) :
    ((s.pel.map PendingEntry.token).Nodup) ∧
    ∀ p ∈ s.pel, ∀ q ∈ s.pel, p.token = q.token → p = q := by
  have hinv := reachable_qinv hr
  have hq : (s.backlog.map Prod.fst ++ s.pel.map PendingEntry.token).Nodup :=
    hinv.1
  have hnd : (s.pel.map PendingEntry.token).Nodup := hq.of_append_right
  refine ⟨hnd, ?_⟩
  intro p hp q hq2 hpq
  exact List.inj_on_of_nodup_map hnd hp hq2 hpq

/-- C3 witness: after two enqueues and two claims by different workers,
the two pending deliveries carry distinct tokens. -/
theorem queue_single_delivery_witness :
    (((claim ((claim (enqueue (enqueue initQueue ⟨"job-1", "pypdf"⟩)
        ⟨"job-2", "gemini"⟩) "worker-1" 7).fst) "worker-2" 8).fst.pel.map
          PendingEntry.token).Nodup) := by
  have h1 : Reachable initQueue := Reachable.init
  have h2 := Reachable.step h1 (QStep.enq initQueue ⟨"job-1", "pypdf"⟩)
  have h3 := Reachable.step h2
    (QStep.enq (enqueue initQueue ⟨"job-1", "pypdf"⟩) ⟨"job-2", "gemini"⟩)
  have h4 := Reachable.step h3
    (QStep.clm (enqueue (enqueue initQueue ⟨"job-1", "pypdf"⟩)
      ⟨"job-2", "gemini"⟩) "worker-1" 7)
  have h5 := Reachable.step h4
    (QStep.clm ((claim (enqueue (enqueue initQueue ⟨"job-1", "pypdf"⟩)
      ⟨"job-2", "gemini"⟩) "worker-1" 7).fst) "worker-2" 8)
  exact (queue_single_delivery _ h5).1

theorem findIndex_some_lt (p : Job → Bool) :
    ∀ (l : List Job) (i : Nat), findIndex p l = some i → i < l.length := by
  intro l
  induction l with
  | nil =>
      intro i h
      simp [findIndex] at h
  | cons j rest ih =>
      intro i h
      by_cases hp : p j
      · simp [findIndex, hp] at h
        subst h
        simp
      · simp [findIndex, hp] at h
        obtain ⟨a, ha, hai⟩ := h
        subst hai
        exact Nat.succ_lt_succ (ih a ha)

theorem findIndex_some_get (p : Job → Bool) :
    ∀ (l : List Job) (i : Nat), findIndex p l = some i →
      ∃ a, l[i]? = some a ∧ p a = true := by
  intro l
  induction l with
  | nil =>
      intro i h
      simp [findIndex] at h
  | cons j rest ih =>
      intro i h
      by_cases hp : p j
      · simp [findIndex, hp] at h
        subst h
        exact ⟨j, by simp, hp⟩
      · simp [findIndex, hp] at h
        obtain ⟨a, ha, hai⟩ := h
        subst hai
        simpa using ih a ha

theorem findIndex_none_all (p : Job → Bool) :
    ∀ (l : List Job), findIndex p l = none → ∀ a ∈ l, p a = false := by
  intro l
  induction l with
  | nil =>
      intro _ a ha
      simp at ha
  | cons j rest ih =>
      intro h a ha
      by_cases hp : p j
      · simp [findIndex, hp] at h
      · rcases List.mem_cons.mp ha with h1 | h2
        · subst h1
          exact Bool.eq_false_iff.mpr hp
        · simp [findIndex, hp] at h
          exact ih h a h2

theorem set_getElem_eq_self {α : Type} :
    ∀ (l : List α) (i : Nat) (a : α), l[i]? = some a → l.set i a = l := by
  intro l
  induction l with
  | nil =>
      intro i a h
      simp at h
  | cons x xs ih =>
      intro i a h
      cases i with
      | zero =>
          simp at h
          simp [List.set, h]
      | succ n =>
          simp at h
          simp [List.set, ih n a h]

/-- C9: upsertJob keeps at most one entry per jobId, its result contains
the given job, an existing entry with that jobId is replaced in place with
the length and all other entries unchanged, and a new jobId is appended at
the end. -/
theorem upsertJob_spec (prev : List Job) (job : Job)
    (hnd : (prev.map Job.jobId).Nodup) :
    ((upsertJob prev job).map Job.jobId).Nodup ∧
    job ∈ upsertJob prev job ∧
    (∀ idx, findIndex (fun j => j.jobId == job.jobId) prev = some idx →
      (upsertJob prev job).length = prev.length ∧
      (upsertJob prev job)[idx]? = some job ∧
      ∀ k, k ≠ idx → (upsertJob prev job)[k]? = prev[k]?) ∧
    (findIndex (fun j => j.jobId == job.jobId) prev = none →
      upsertJob prev job = prev ++ [job]) := by
  cases hfi : findIndex (fun j => j.jobId == job.jobId) prev with
  | some idx =>
      have hlt := findIndex_some_lt _ prev idx hfi
      obtain ⟨a, ha, hpa⟩ := findIndex_some_get _ prev idx hfi
      have haj : a.jobId = job.jobId := by simpa using hpa
      have hup : upsertJob prev job = prev.set idx job := by
        simp [upsertJob, hfi]
      have hkeys : (prev.set idx job).map Job.jobId = prev.map Job.jobId := by
        rw [List.map_set]
        apply set_getElem_eq_self
        rw [List.getElem?_map, ha]
        simp [haj]
      refine ⟨?_, ?_, ?_, ?_⟩
      · rw [hup, hkeys]
        exact hnd
      · rw [hup]
        exact List.mem_set prev idx hlt job
      · intro idx2 hidx2
        injection hidx2 with hi
        subst hi
        refine ⟨by rw [hup]; simp, ?_, ?_⟩
        · rw [hup]
          exact List.getElem?_set_self (by simpa using hlt)
        · intro k hk
          rw [hup]
          exact List.getElem?_set_ne (Ne.symm hk)
      · intro hnone
        exact absurd hnone (by simp)
  | none =>
      have hall := findIndex_none_all _ prev hfi
      have hup : upsertJob prev job = prev ++ [job] := by
        simp [upsertJob, hfi]
      have hnotin : job.jobId ∉ prev.map Job.jobId := by
        intro hmem
        obtain ⟨a, hain, haeq⟩ := List.mem_map.mp hmem
        have hfalse := hall a hain
        rw [haeq] at hfalse
        simp at hfalse
      refine ⟨?_, ?_, ?_, fun _ => hup⟩
      · rw [hup, List.map_append]
        refine List.nodup_append.mpr ⟨hnd, by simp, ?_⟩
        intro x hx1 hx2
        simp at hx2
        subst hx2
        exact hnotin hx1
      · rw [hup]
        exact List.mem_append_right _ (List.mem_singleton.mpr rfl)
      · intro idx hidx
        exact absurd hidx (by simp)

/-- C9 witness: inserting a job with a fresh jobId into a one-element list
keeps the keys distinct and yields a list containing the new job. -/
theorem upsertJob_spec_witness :
    Job.mk "b" "b.pdf" "pending" "" "" ∈
      upsertJob [Job.mk "a" "a.pdf" "done" "s" "m"]
        (Job.mk "b" "b.pdf" "pending" "" "") ∧
    ((upsertJob [Job.mk "a" "a.pdf" "done" "s" "m"]
        (Job.mk "b" "b.pdf" "pending" "" "")).map Job.jobId).Nodup := by
  have h := upsertJob_spec [Job.mk "a" "a.pdf" "done" "s" "m"]
    (Job.mk "b" "b.pdf" "pending" "" "") (by simp)
  exact ⟨h.2.1, h.1⟩

/-- C1 witness: a poll that receives a done status stops scheduling. -/
theorem pollStep_stops_iff_terminal_witness :
    pollStep 100 500 5000 0 (.ok ⟨"j1", "done", "md", "sum"⟩) = .stop :=
  (pollStep_stops_iff_terminal 100 500 5000 0 _).mpr
    ⟨⟨"j1", "done", "md", "sum"⟩, rfl, Or.inl rfl⟩

/-- C6 witness: on a successful request the lookup returns the record. -/
theorem getJobStatus_ok_or_raises_witness :
    (∃ js, getJobStatus (.ok ⟨"j1", "done", "m", "s"⟩) = .ok js) ∨
      getJobStatus (.ok ⟨"j1", "done", "m", "s"⟩) =
        .error "Failed to fetch job status. Please try again." :=
  getJobStatus_ok_or_raises (.ok ⟨"j1", "done", "m", "s"⟩)

/-- C2 witness: double ack of token 0 on a one-delivery queue equals a
single ack. -/
theorem ack_idempotent_witness :
    ack (ack ⟨2, [], [⟨0, ⟨"j1", "pypdf"⟩, "w1", 1⟩]⟩ 0) 0 =
      ack ⟨2, [], [⟨0, ⟨"j1", "pypdf"⟩, "w1", 1⟩]⟩ 0 :=
  ack_idempotent ⟨2, [], [⟨0, ⟨"j1", "pypdf"⟩, "w1", 1⟩]⟩ 0

/-- C8 witness: the record created for one concrete upload starts pending
with empty output fields. -/
theorem newJob_initial_state_witness :
    (newJob "j1" "a.pdf").status = "pending" ∧
    (newJob "j1" "a.pdf").markdown = "" ∧
    (newJob "j1" "a.pdf").summary = "" :=
  newJob_initial_state "j1" "a.pdf"

/-- C4 amended witness: the amended statement at one concrete job. -/
theorem markdown_empty_until_done_amended_witness :
    (newJob "j1" "a.pdf").markdown = "" ∧
    (pollFailureJob "j1" "a.pdf").status = "error" ∧
    (pollFailureJob "j1" "a.pdf").markdown =
      "Error checking job status. Please try again." ∧
    viewerErrorText (pollFailureJob "j1" "a.pdf").markdown =
      "Error checking job status. Please try again." :=
  markdown_empty_until_done_amended "j1" "a.pdf"

end DocProc
